import Mathlib

/-!
A shallow embedding of the duplicate-file-finder engine
(src/core/scanner.py and src/core/analyzers.py) together with proofs about it.

Modelling conventions:
* Python dicts that are only ever keyed by file path are embedded as
  association lists `List (FsPath × _)` in insertion order; dict-key uniqueness
  becomes a `Nodup` hypothesis on the key projection.
* Python floats are embedded as exact rationals `ℚ`; the statements proved
  below do not depend on values where binary floats and exact rationals
  could disagree, and boundary constants (0.05, 0.8, 33) are carried exactly.
* A Python `set` used only for membership tests is embedded as a `List` with
  `∈`.
* Library calls whose output the engine treats as an opaque fingerprint
  (SHA-256 digests, cv2 frame decoding plus md5 of the thumbnail bytes,
  imagehash values) are embedded as opaque data supplied with the input:
  the engine never inspects them beyond equality / Hamming distance, which
  is what the embedding keeps.
-/

set_option autoImplicit false

/-- File paths are opaque strings; the engine compares them only for equality. -/
abbrev FsPath := String

/-- A hex digest produced by `FileHasher.hash_file`; opaque to the engine. -/
abbrev Digest := String

/-! ## FileDiscovery: DuplicateScanner.scan_directory (scanner.py lines 32-51) -/

/-- SUPPORTED_IMAGE_FORMATS from scanner.py line 16. -/
def SUPPORTED_IMAGE_FORMATS : List String :=
  [".jpg", ".jpeg", ".png", ".gif", ".bmp", ".tiff", ".webp", ".heic", ".heif"]

/-- SUPPORTED_VIDEO_FORMATS from scanner.py line 17. -/
def SUPPORTED_VIDEO_FORMATS : List String :=
  [".mp4", ".avi", ".mov", ".mkv", ".wmv", ".flv", ".webm", ".m4v"]

/-- A file met during the os.walk traversal: its full path and its suffix
(extension with the dot, as returned by Path.suffix, case preserved). -/
structure FileEntry where
  path : FsPath
  suffix : String
deriving DecidableEq, Repr

/-- Errors the scanner can raise.  scan_directory raises a ValueError for a
missing root (scanner.py line 37); the spec calls this error NotFoundError. -/
inductive ScanError where
  | notFound (dir : String) : ScanError
deriving DecidableEq, Repr

/-- DuplicateScanner.scan_directory (scanner.py lines 32-51).  `exists` is the
result of the `directory_path.exists()` probe, `walk` the files yielded by
os.walk in traversal order, `stopped` the sampled value of the shared stop
flag, and `files` the scanner's file list so far (appended to, never reset).
A missing directory raises before the walk starts; otherwise every walked
file whose lowercased suffix is a supported image or video format is
appended. -/
def scan_directory (dir : String) (exists_ : Bool) (walk : List FileEntry)
    (stopped : Bool) (files : List FsPath) : Except ScanError (List FsPath) :=
  if !exists_ then
    .error (.notFound dir)
  else if stopped then
    .ok files
  else
    .ok (files ++ (walk.filter fun fe =>
      fe.suffix.toLower ∈ SUPPORTED_IMAGE_FORMATS ∪ SUPPORTED_VIDEO_FORMATS
      ).map (·.path))

/-! ## Progress reporting (scanner.py lines 97-99, 128-130, 159-161)

Each stage reports, after handling its (i+1)-st completed future,
`base + int((i+1)/n * width)` where the bands are hard-coded:
exact hashing base 0 width 33, image analysis base 33 width 33,
video analysis base 66 width 34.  `int(x)` truncation of the float product
is embedded as Nat floor division; at the final iteration i+1 = n both
semantics give exactly base + width, the only values the theorems below
rest on. -/

/-- The sequence of percent values one stage reports over n completed items. -/
def stageReports (base width n : Nat) : List Nat :=
  (List.range n).map fun i => base + (i + 1) * width / n

/-- The three stage-enable switches of ScanOptions (config keys exact_match,
similar_images, similar_videos). -/
structure ScanOptions where
  exact_match : Bool
  similar_images : Bool
  similar_videos : Bool
deriving DecidableEq, Repr

/-- All percent values reported over a whole find_duplicates run, given the
number of items each enabled stage processes (scanner.py lines 62-75 run the
stages in the fixed order exact, image, video). -/
def progressReports (opts : ScanOptions) (nFiles nImages nVideos : Nat) : List Nat :=
  (if opts.exact_match then stageReports 0 33 nFiles else []) ++
  (if opts.similar_images then stageReports 33 33 nImages else []) ++
  (if opts.similar_videos then stageReports 66 34 nVideos else [])

/-! ## ImageAnalyzer (analyzers.py lines 38-95) -/

/-- The perceptual-hash record ImageAnalyzer.analyze builds (analyzers.py
lines 55-62): four fixed-width perceptual hashes, each an imagehash value
that the engine only ever subtracts (Hamming distance), embedded as bit
lists, plus the resolution string and the primary hash preview. -/
structure Fingerprint where
  ahash : List Bool
  dhash : List Bool
  phash : List Bool
  whash : List Bool
  resolution : String
  hash : String
deriving DecidableEq, Repr

/-- Hamming distance between two imagehash bit arrays, the meaning of the
`-` operator on imagehash values used at analyzers.py lines 80-83. -/
def hammingDistance (xs ys : List Bool) : Nat :=
  ((xs.zip ys).filter fun p => p.1 != p.2).length

namespace ImageAnalyzer

/-- ImageAnalyzer.compare (analyzers.py lines 66-95) on well-formed
fingerprint records: average the four per-type Hamming distances, convert
to a similarity percentage against the hard-coded 64-bit width, and accept
iff the similarity reaches the threshold. -/
def compare (hash1 hash2 : Fingerprint) (threshold : ℚ) : Bool :=
  let distances : List ℚ :=
    [hammingDistance hash1.ahash hash2.ahash,
     hammingDistance hash1.dhash hash2.dhash,
     hammingDistance hash1.phash hash2.phash,
     hammingDistance hash1.whash hash2.whash]
  let avg_distance := distances.sum / distances.length
  let similarity := (1 - avg_distance / 64) * 100
  decide (similarity ≥ threshold)

end ImageAnalyzer

/-- Modelled from the spec, section 4.3: similarity of two fingerprint sets is
(1 − avgDistance/maxBits) × 100 with maxBits = 64, avgDistance the mean of
the four per-type Hamming distances.  Stated separately so the code-side
compare can be proved equivalent to the spec-side formula. -/
def imageSimilaritySpec (h1 h2 : Fingerprint) : ℚ :=
  (1 - (((hammingDistance h1.ahash h2.ahash : ℚ) + hammingDistance h1.dhash h2.dhash +
         hammingDistance h1.phash h2.phash + hammingDistance h1.whash h2.whash) / 4) / 64) * 100

/-! ## VideoAnalyzer.compare (analyzers.py lines 184-218) -/

/-- The content signature VideoAnalyzer.analyze returns (analyzers.py lines
173-179).  Frame hashes are md5 hex digests of thumbnail bytes, opaque to the
engine, embedded as naturals. -/
structure VideoSig where
  frame_hashes : List Nat
  duration : ℚ
  resolution : String
  fps : ℚ
  frame_count : Int
deriving DecidableEq, Repr

namespace VideoAnalyzer

/-- VideoAnalyzer.compare (analyzers.py lines 184-218) on well-formed
signatures: positional frame-hash matches over min length, a 0.8 penalty when
both durations are positive and differ by more than 5 percent of the larger,
accept iff the adjusted similarity reaches the threshold. -/
def compare (sig1 sig2 : VideoSig) (threshold : ℚ) : Bool :=
  let hashes1 := sig1.frame_hashes
  let hashes2 := sig2.frame_hashes
  if hashes1.isEmpty || hashes2.isEmpty then
    false
  else
    let matchCount := ((hashes1.zip hashes2).filter fun p => p.1 == p.2).length
    let similarity : ℚ := (matchCount : ℚ) / (min hashes1.length hashes2.length : ℚ) * 100
    let duration1 := sig1.duration
    let duration2 := sig2.duration
    let similarity :=
      if duration1 > 0 ∧ duration2 > 0 ∧
          |duration1 - duration2| / max duration1 duration2 > 5 / 100 then
        similarity * (8 / 10)
      else
        similarity
    decide (similarity ≥ threshold)

end VideoAnalyzer

/-- Modelled from the spec, section 4.4: raw similarity of two signatures,
(number of positionally equal frame hashes) / min(len1, len2) × 100. -/
def videoRawSimilaritySpec (s1 s2 : VideoSig) : ℚ :=
  (((s1.frame_hashes.zip s2.frame_hashes).filter fun p => p.1 == p.2).length : ℚ) /
    (min s1.frame_hashes.length s2.frame_hashes.length : ℚ) * 100

/-- Modelled from the spec, section 4.4: the duration-aware adjusted
similarity — multiply by 0.8 exactly when both durations are positive and
their absolute difference exceeds 5 percent of the larger one. -/
def videoAdjustedSimilaritySpec (s1 s2 : VideoSig) : ℚ :=
  if s1.duration > 0 ∧ s2.duration > 0 ∧
      |s1.duration - s2.duration| / max s1.duration s2.duration > 5 / 100 then
    videoRawSimilaritySpec s1 s2 * (8 / 10)
  else
    videoRawSimilaritySpec s1 s2

/-! ## VideoAnalyzer.analyze (analyzers.py lines 101-182)

The cv2 capture is embedded as data carried by the input file: whether it
opens, the properties it reports, and per frame index the outcome of the
seek-read-grayscale-resize-md5 pipeline (a hash on success, a failed read,
or an exception caught by the inner handler).  `timeCost` records the
wall-clock seconds the analysis of the file takes; the source stores
`timeout_seconds` (analyzers.py line 104) but `analyze` never consults it,
which the embedding makes explicit by never reading this field. -/

/-- Outcome of handling one sampled frame index (analyzers.py lines 144-165):
a frame hash, a failed read (ret false or frame None), or an exception from
the cv2 calls, swallowed by the `except: continue` handler. -/
inductive FrameRead where
  | ok (h : Nat) : FrameRead
  | noFrame : FrameRead
  | exc : FrameRead

/-- A video file as VideoAnalyzer.analyze observes it. -/
structure VideoFile where
  size : Nat
  opened : Bool
  fps : ℚ
  frame_count : Int
  width : Int
  height : Int
  frameRead : Int → FrameRead
  timeCost : ℚ

namespace VideoAnalyzer

/-- Sample-count choice (analyzers.py line 137):
min(sample_frames, max(3, frame_count // 10)) with sample_frames = 10. -/
def sampleCount (frame_count : Int) : Int :=
  min (10 : Int) (max 3 (frame_count / 10))

/-- np.linspace(0, max(0, frame_count - 1), n, dtype=int) from analyzers.py
line 140: n evenly spaced points whose float values are truncated to ints;
embedded as exact rational floor (operands are nonnegative here). -/
def frameIndices (frame_count : Int) (n : Nat) : List Int :=
  (List.range n).map fun i => ((i : Int) * max 0 (frame_count - 1)) / ((n : Int) - 1)

/-- The sampling loop of analyzers.py lines 143-165: accumulate frame hashes,
skip failed indices, and abandon the file (return None) when nothing has
been read and the current index is already past frame_count // 2.  After a
successful read the accumulated list is nonempty, so the abandon test can
only fire after a failed read, matching its placement in the source. -/
def readFrames (read : Int → FrameRead) (frame_count : Int) :
    List Int → List Nat → Nat → Option (List Nat)
  | [], acc, _ => some acc
  | idx :: rest, acc, successes =>
    match read idx with
    | .ok h => readFrames read frame_count rest (acc ++ [h]) (successes + 1)
    | .noFrame =>
      if acc.length = 0 ∧ successes = 0 ∧ idx > frame_count / 2 then none
      else readFrames read frame_count rest acc successes
    | .exc => readFrames read frame_count rest acc successes

/-- VideoAnalyzer.analyze (analyzers.py lines 106-182): size floor, capture
open check, property validation, sampling, and the at-least-2-frames rule. -/
def analyze (v : VideoFile) : Option VideoSig :=
  if v.size < 1024 then none
  else if !v.opened then none
  else if v.fps ≤ 0 ∨ v.frame_count ≤ 0 ∨ v.width ≤ 0 ∨ v.height ≤ 0 then none
  else
    let duration : ℚ := if v.fps > 0 then (v.frame_count : ℚ) / v.fps else 0
    let sample_count := sampleCount v.frame_count
    let indices := frameIndices v.frame_count sample_count.toNat
    match readFrames v.frameRead v.frame_count indices [] 0 with
    | none => none
    | some frame_hashes =>
      if frame_hashes.length < 2 then none
      else some
        { frame_hashes := frame_hashes
          duration := duration
          resolution := toString v.width ++ "x" ++ toString v.height
          fps := v.fps
          frame_count := v.frame_count }

end VideoAnalyzer

/-! ## DuplicateScanner grouping and merging (scanner.py lines 53-77, 170-268)

Result dicts (file_hashes, perceptual_hashes, video_signatures) are embedded
as association lists in dict insertion order, which the source populates in
future-completion order (as_completed, scanner.py lines 84, 115, 146).  The
file-info dicts built by _create_file_info are projected to their 'path'
field, the only field the grouping, merging and the claims below inspect. -/

namespace DuplicateScanner

/-- One `hash_groups.setdefault-append` step of _find_exact_duplicates
(scanner.py lines 175-177): append the path to the bucket of its digest,
creating the bucket at the end on first sight (Python dicts keep first-insertion
key order). -/
def insertHashGroup : List (Digest × List FsPath) → Digest → FsPath →
    List (Digest × List FsPath)
  | [], h, p => [(h, [p])]
  | (h', ps) :: rest, h, p =>
    if h' = h then (h', ps ++ [p]) :: rest
    else (h', ps) :: insertHashGroup rest h p

/-- The hash_groups dict of _find_exact_duplicates after the loop over
file_hashes.items() (scanner.py lines 172-177). -/
def buildHashGroups (file_hashes : List (FsPath × Digest)) : List (Digest × List FsPath) :=
  file_hashes.foldl (fun hg e => insertHashGroup hg e.2 e.1) []

/-- DuplicateScanner._find_exact_duplicates (scanner.py lines 170-179):
bucket paths by digest, keep buckets of size above 1. -/
def find_exact_duplicates (file_hashes : List (FsPath × Digest)) : List (List FsPath) :=
  ((buildHashGroups file_hashes).map Prod.snd).filter fun g => decide (1 < g.length)

/-- All paths stored across the buckets of a hash_groups dict, in bucket
order. -/
def flatPaths (hg : List (Digest × List FsPath)) : List FsPath :=
  (hg.map Prod.snd).flatten

/-- The paths recorded against a given digest, in map order: the fiber of
the file_hashes map over one hash value. -/
def pathsOfHash (fh : List (FsPath × Digest)) (h : Digest) : List FsPath :=
  (fh.filter fun e => e.2 == h).map Prod.fst

/-- The inner loop of the greedy clustering (scanner.py lines 193-199 and
219-225): scan the whole result dict for unclaimed partners of file1 that the
analyzer accepts, claiming each match as it is found.  Returns the matched
partners in scan order together with the updated processed set. -/
def innerScan {α : Type} (cmp : α → α → Bool) (file1 : FsPath) (h1 : α) :
    List (FsPath × α) → List FsPath → List FsPath × List FsPath
  | [], processed => ([], processed)
  | (file2, h2) :: rest, processed =>
    if file1 = file2 ∨ file2 ∈ processed then
      innerScan cmp file1 h1 rest processed
    else if cmp h1 h2 then
      let r := innerScan cmp file1 h1 rest (processed ++ [file2])
      (file2 :: r.1, r.2)
    else
      innerScan cmp file1 h1 rest processed

/-- The outer loop of the greedy clustering (scanner.py lines 187-203 and
213-229): seed a group at each unclaimed file in dict order, keep it only
when at least one partner matched, claiming the seed as well. -/
def greedyGroups {α : Type} (cmp : α → α → Bool) (all : List (FsPath × α)) :
    List (FsPath × α) → List FsPath → List (List FsPath)
  | [], _ => []
  | (file1, h1) :: rest, processed =>
    if file1 ∈ processed then greedyGroups cmp all rest processed
    else
      let r := innerScan cmp file1 h1 all processed
      if r.1 = [] then greedyGroups cmp all rest r.2
      else (file1 :: r.1) :: greedyGroups cmp all rest (r.2 ++ [file1])

/-- DuplicateScanner._find_similar_images (scanner.py lines 181-205),
projected to paths. -/
def find_similar_images (perceptual_hashes : List (FsPath × Fingerprint))
    (threshold : ℚ) : List (List FsPath) :=
  greedyGroups (fun h1 h2 => ImageAnalyzer.compare h1 h2 threshold)
    perceptual_hashes perceptual_hashes []

/-- DuplicateScanner._find_similar_videos (scanner.py lines 207-231),
projected to paths. -/
def find_similar_videos (video_signatures : List (FsPath × VideoSig))
    (threshold : ℚ) : List (List FsPath) :=
  greedyGroups (fun s1 s2 => VideoAnalyzer.compare s1 s2 threshold)
    video_signatures video_signatures []

/-- The loop of _merge_duplicate_groups (scanner.py lines 262-266) with the
seen_files set explicit: accept a group exactly when none of its member
paths is already seen, and only then add its members to seen_files. -/
def mergeLoop : List (List FsPath) → List FsPath → List (List FsPath)
  | [], _ => []
  | group :: rest, seen_files =>
    if ∀ p ∈ group, p ∉ seen_files then
      group :: mergeLoop rest (seen_files ++ group)
    else
      mergeLoop rest seen_files

/-- DuplicateScanner._merge_duplicate_groups (scanner.py lines 253-268);
the early return for an empty groups list coincides with the loop. -/
def merge_duplicate_groups (groups : List (List FsPath)) : List (List FsPath) :=
  mergeLoop groups []

/-- The per-scan result state find_duplicates reads (scanner.py lines 21-24,
populated by the stage loops before grouping). -/
structure ScanState where
  files : List FsPath
  file_hashes : List (FsPath × Digest)
  perceptual_hashes : List (FsPath × Fingerprint)
  video_signatures : List (FsPath × VideoSig)
  threshold : ℚ

/-- DuplicateScanner.find_duplicates (scanner.py lines 53-77): run the
enabled stages in the fixed order exact, image, video, concatenate their
group lists, and merge. -/
def find_duplicates (opts : ScanOptions) (st : ScanState) : List (List FsPath) :=
  if st.files = [] then []
  else
    merge_duplicate_groups
      ((if opts.exact_match then find_exact_duplicates st.file_hashes else []) ++
       (if opts.similar_images then find_similar_images st.perceptual_hashes st.threshold else []) ++
       (if opts.similar_videos then find_similar_videos st.video_signatures st.threshold else []))

end DuplicateScanner

/-! ## Dynamic layer: compare on arbitrary Python values (claim about totality)

The compare methods are called with plain dicts and wrap their whole body in
`try ... except Exception: return False` (analyzers.py lines 77-95 and
195-218).  To reason about malformed inputs, Python values are embedded as a
small dynamic universe, dict operations and arithmetic are evaluated in an
exception monad, and the top-level handler maps any error to False.
Iteration (zip) is modelled for list values; other iterables are
conservatively mapped to a TypeError, which the handler treats identically. -/

/-- A Python runtime value as the compare methods can receive one. -/
inductive PyVal where
  | int (n : Int) : PyVal
  | float (q : ℚ) : PyVal
  | str (s : String) : PyVal
  | list (l : List PyVal) : PyVal
  | ihash (bits : List Bool) : PyVal
  | pynone : PyVal

/-- The exceptions the compare bodies can raise, all subclasses of
Exception and hence caught by the handlers. -/
inductive PyErr where
  | keyError : PyErr
  | typeError : PyErr
  | valueError : PyErr

/-- A Python dict with string keys, as the analyzers build them. -/
abbrev PyDict := List (String × PyVal)

/-- dict.get(key, default): total. -/
def pyGet (d : PyDict) (k : String) (default : PyVal) : PyVal :=
  match d.find? (fun e => e.1 == k) with
  | some e => e.2
  | Option.none => default

/-- dict[key]: raises KeyError when absent. -/
def pyGetItem (d : PyDict) (k : String) : Except PyErr PyVal :=
  match d.find? (fun e => e.1 == k) with
  | some e => .ok e.2
  | Option.none => .error .keyError

/-- Python subtraction as the image compare uses it: numeric values subtract
to a number; two imagehash values of equal bit-width subtract to their
Hamming distance (imagehash.__sub__); every other combination raises. -/
def pySub : PyVal → PyVal → Except PyErr ℚ
  | .int a, .int b => .ok ((a : ℚ) - b)
  | .int a, .float b => .ok ((a : ℚ) - b)
  | .float a, .int b => .ok (a - (b : ℚ))
  | .float a, .float b => .ok (a - b)
  | .ihash a, .ihash b =>
    if a.length = b.length then .ok (hammingDistance a b : ℚ)
    else .error .typeError
  | _, _ => .error .typeError

/-- Truthiness (`not x`): numbers and strings and lists as in Python; the
truth value of a numpy-backed imagehash array raises. -/
def pyTruthy : PyVal → Except PyErr Bool
  | .int n => .ok (decide (n ≠ 0))
  | .float q => .ok (decide (q ≠ 0))
  | .str s => .ok (decide (s ≠ ""))
  | .list l => .ok (!l.isEmpty)
  | .ihash _ => .error .valueError
  | .pynone => .ok false

/-- Python `==` between two runtime values: numerics compare numerically,
strings and None structurally, lists elementwise, cross-type comparisons
are False, and `==` on imagehash values yields a numpy array whose use as a
condition raises. -/
def pyEq : PyVal → PyVal → Except PyErr Bool
  | .int a, .int b => .ok (decide (a = b))
  | .int a, .float b => .ok (decide ((a : ℚ) = b))
  | .float a, .int b => .ok (decide (a = (b : ℚ)))
  | .float a, .float b => .ok (decide (a = b))
  | .str a, .str b => .ok (a == b)
  | .pynone, .pynone => .ok true
  | .ihash _, .ihash _ => .error .valueError
  | .list [], .list [] => .ok true
  | .list (a :: as), .list (b :: bs) => do
    let h ← pyEq a b
    if h then pyEq (.list as) (.list bs) else .ok false
  | .list _, .list _ => .ok false
  | _, _ => .ok false

/-- Numeric coercion for comparisons and arithmetic on durations; anything
non-numeric raises a TypeError as Python ordering comparisons do. -/
def pyNum : PyVal → Except PyErr ℚ
  | .int n => .ok (n : ℚ)
  | .float q => .ok q
  | _ => .error .typeError

/-- The elements of a list value; zip over any other value is modelled as a
TypeError. -/
def pyElems : PyVal → Except PyErr (List PyVal)
  | .list l => .ok l
  | _ => .error .typeError

/-- The body of ImageAnalyzer.compare (analyzers.py lines 78-93) on raw
dicts, evaluated in the exception monad: four lookups and subtractions,
average, similarity, threshold test. -/
def imageCompareBody (hash1 hash2 : PyDict) (threshold : ℚ) : Except PyErr Bool := do
  let da ← pySub (← pyGetItem hash1 "ahash") (← pyGetItem hash2 "ahash")
  let dd ← pySub (← pyGetItem hash1 "dhash") (← pyGetItem hash2 "dhash")
  let dp ← pySub (← pyGetItem hash1 "phash") (← pyGetItem hash2 "phash")
  let dw ← pySub (← pyGetItem hash1 "whash") (← pyGetItem hash2 "whash")
  let avg_distance := (da + dd + dp + dw) / 4
  let similarity := (1 - avg_distance / 64) * 100
  return decide (similarity ≥ threshold)

namespace ImageAnalyzer

/-- ImageAnalyzer.compare on raw dicts: the body under the
`except Exception: return False` handler (analyzers.py lines 94-95). -/
def compareDyn (hash1 hash2 : PyDict) (threshold : ℚ) : Bool :=
  match imageCompareBody hash1 hash2 threshold with
  | .ok b => b
  | .error _ => false

end ImageAnalyzer

/-- The number of positionally equal pairs, `sum(1 for h1, h2 in zip(..) if
h1 == h2)` (analyzers.py line 204), in the exception monad. -/
def pyMatchCount : List (PyVal × PyVal) → Except PyErr Nat
  | [] => .ok 0
  | p :: rest => do
    let e ← pyEq p.1 p.2
    let n ← pyMatchCount rest
    return (if e then n + 1 else n)

/-- The body of VideoAnalyzer.compare (analyzers.py lines 196-216) on raw
dicts, evaluated in the exception monad, with Python's short-circuit order:
the emptiness guard, the positional match count, then the duration check. -/
def videoCompareBody (sig1 sig2 : PyDict) (threshold : ℚ) : Except PyErr Bool := do
  let hashes1 := pyGet sig1 "frame_hashes" (.list [])
  let hashes2 := pyGet sig2 "frame_hashes" (.list [])
  if !(← pyTruthy hashes1) then return false
  if !(← pyTruthy hashes2) then return false
  let l1 ← pyElems hashes1
  let l2 ← pyElems hashes2
  let matchCount ← pyMatchCount (l1.zip l2)
  let similarity : ℚ := (matchCount : ℚ) / (min l1.length l2.length : ℚ) * 100
  let duration1 := pyGet sig1 "duration" (.int 0)
  let duration2 := pyGet sig2 "duration" (.int 0)
  let similarity ← do
    if (← pyNum duration1) > 0 then
      if (← pyNum duration2) > 0 then
        let q1 ← pyNum duration1
        let q2 ← pyNum duration2
        let duration_diff := |q1 - q2| / max q1 q2
        if duration_diff > 5 / 100 then pure (similarity * (8 / 10))
        else pure similarity
      else pure similarity
    else pure similarity
  return decide (similarity ≥ threshold)

namespace VideoAnalyzer

/-- VideoAnalyzer.compare on raw dicts: the body under the
`except Exception: return False` handler (analyzers.py lines 217-218). -/
def compareDyn (sig1 sig2 : PyDict) (threshold : ℚ) : Bool :=
  match videoCompareBody sig1 sig2 threshold with
  | .ok b => b
  | .error _ => false

end VideoAnalyzer

/-! ## Helper lemmas -/

theorem stageReports_getLast (base width n : Nat) (hn : 0 < n) :
    (stageReports base width n).getLast? = some (base + width) := by
  cases n with
  | zero => exact absurd hn (by simp)
  | succ m =>
    rw [stageReports, List.range_succ, List.map_append]
    simp only [List.map_cons, List.map_nil, List.getLast?_concat]
    rw [Nat.mul_div_cancel_left _ (Nat.succ_pos m)]

theorem stageReports_le (base width n : Nat) :
    ∀ p ∈ stageReports base width n, p ≤ base + width := by
  intro p hp
  simp only [stageReports, List.mem_map, List.mem_range] at hp
  obtain ⟨i, hi, rfl⟩ := hp
  have h1 : (i + 1) * width / n ≤ n * width / n :=
    Nat.div_le_div_right (Nat.mul_le_mul_right _ hi)
  rw [Nat.mul_div_cancel_left _ (Nat.pos_of_ne_zero (by omega))] at h1
  omega

theorem stageReports_ne_nil (base width n : Nat) (hn : 0 < n) :
    stageReports base width n ≠ [] := by
  have : (stageReports base width n).length = n := by simp [stageReports]
  intro h
  rw [h] at this
  simp at this
  omega

/-! ## Claim theorems: discovery and progress -/

/-- C2: a directory that does not exist on disk makes scan_directory fail
with the not-found error before any walking happens, while an existing
directory only appends discovered media files to the internal file list and
never raises. -/
theorem C2_scan_directory_behavior (dir : String) (walk : List FileEntry)
    (stopped : Bool) (files : List FsPath) :
    scan_directory dir false walk stopped files = .error (.notFound dir) ∧
    ∃ found, scan_directory dir true walk stopped files = .ok (files ++ found) := by
  refine ⟨rfl, ?_⟩
  cases stopped with
  | true => exact ⟨[], by simp [scan_directory]⟩
  | false => exact ⟨_, rfl⟩

/-- C3 counterexample: with only the exact stage enabled and one file, the
complete run of progress reports is [33]; a completed one-stage scan reports
33, not 100, because the progress bands are hard-coded, not apportioned
across the enabled stages. -/
theorem C3_counterexample_progress :
    progressReports ⟨true, false, false⟩ 1 0 0 = [33] ∧ (33 : Nat) ≠ 100 := by
  constructor
  · rfl
  · decide

theorem progressReports_mem_cases (opts : ScanOptions) (nF nI nV p : Nat)
    (hp : p ∈ progressReports opts nF nI nV) :
    p ∈ stageReports 0 33 nF ∨ p ∈ stageReports 33 33 nI ∨ p ∈ stageReports 66 34 nV := by
  rw [progressReports] at hp
  rcases List.mem_append.1 hp with hp | hp
  · rcases List.mem_append.1 hp with hp | hp
    · split at hp
      · exact Or.inl hp
      · simp at hp
    · split at hp
      · exact Or.inr (Or.inl hp)
      · simp at hp
  · split at hp
    · exact Or.inr (Or.inr hp)
    · simp at hp

theorem progressReports_mem_cases_novideo (opts : ScanOptions) (nF nI nV p : Nat)
    (hv : opts.similar_videos = false) (hp : p ∈ progressReports opts nF nI nV) :
    p ∈ stageReports 0 33 nF ∨ p ∈ stageReports 33 33 nI := by
  rcases progressReports_mem_cases opts nF nI nV p hp with h | h | h
  · exact Or.inl h
  · exact Or.inr h
  · rw [progressReports, hv] at hp
    rcases List.mem_append.1 hp with hp | hp
    · rcases List.mem_append.1 hp with hp | hp
      · split at hp
        · exact Or.inl hp
        · simp at hp
      · split at hp
        · exact Or.inr hp
        · simp at hp
    · simp at hp

/-- C3 amended: the progress bands are fixed at exact 0-33, image 33-66,
video 66-100 irrespective of which stages are enabled; every report stays at
or below 100; each stage's final report is its band top (33, 66, 100);
cumulative progress reaches 100 exactly when the video stage runs at least
one file, and a run without the video stage never reports above 66 — in
particular a scan with only the exact stage enabled finishes at 33. -/
theorem C3_amended_progress_bands (opts : ScanOptions) (nFiles nImages nVideos : Nat) :
    (∀ p ∈ progressReports opts nFiles nImages nVideos, p ≤ 100) ∧
    (0 < nFiles → (stageReports 0 33 nFiles).getLast? = some 33) ∧
    (0 < nImages → (stageReports 33 33 nImages).getLast? = some 66) ∧
    (0 < nVideos → (stageReports 66 34 nVideos).getLast? = some 100) ∧
    (opts.similar_videos = true → 0 < nVideos →
      (progressReports opts nFiles nImages nVideos).getLast? = some 100) ∧
    (opts.similar_videos = false →
      ∀ p ∈ progressReports opts nFiles nImages nVideos, p ≤ 66) ∧
    (opts = ⟨true, false, false⟩ → 0 < nFiles →
      (progressReports opts nFiles nImages nVideos).getLast? = some 33) := by
  refine ⟨?_, fun h => stageReports_getLast 0 33 nFiles h,
    fun h => stageReports_getLast 33 33 nImages h,
    fun h => stageReports_getLast 66 34 nVideos h, ?_, ?_, ?_⟩
  · intro p hp
    rcases progressReports_mem_cases opts nFiles nImages nVideos p hp with h | h | h
    · exact le_trans (stageReports_le 0 33 nFiles p h) (by omega)
    · exact le_trans (stageReports_le 33 33 nImages p h) (by omega)
    · exact stageReports_le 66 34 nVideos p h
  · intro hv hn
    rw [progressReports, hv, if_pos rfl,
      List.getLast?_append_of_ne_nil _ (stageReports_ne_nil 66 34 nVideos hn)]
    exact stageReports_getLast 66 34 nVideos hn
  · intro hv p hp
    rcases progressReports_mem_cases_novideo opts nFiles nImages nVideos p hv hp with h | h
    · exact le_trans (stageReports_le 0 33 nFiles p h) (by omega)
    · exact stageReports_le 33 33 nImages p h
  · rintro rfl hn
    rw [progressReports]
    simp only [if_pos rfl]
    norm_num
    exact stageReports_getLast 0 33 nFiles hn

/-! ## Claim theorems: video analyze pre-validation and timeout -/

theorem analyze_none_of_invalid_props (v : VideoFile)
    (h : v.fps ≤ 0 ∨ v.frame_count ≤ 0 ∨ v.width ≤ 0 ∨ v.height ≤ 0) :
    VideoAnalyzer.analyze v = none := by
  unfold VideoAnalyzer.analyze
  split_ifs <;> rfl

/-- C9: a video file under the 1024-byte size floor yields no signature, and
so does any video whose reported fps, frame count, width or height is not
strictly positive; in all these cases analyze returns None rather than
raising. -/
theorem C9_video_prevalidation (v : VideoFile) :
    (v.size < 1024 → VideoAnalyzer.analyze v = none) ∧
    (v.fps ≤ 0 → VideoAnalyzer.analyze v = none) ∧
    (v.frame_count ≤ 0 → VideoAnalyzer.analyze v = none) ∧
    (v.width ≤ 0 → VideoAnalyzer.analyze v = none) ∧
    (v.height ≤ 0 → VideoAnalyzer.analyze v = none) := by
  refine ⟨fun h => ?_, fun h => analyze_none_of_invalid_props v (Or.inl h),
    fun h => analyze_none_of_invalid_props v (Or.inr (Or.inl h)),
    fun h => analyze_none_of_invalid_props v (Or.inr (Or.inr (Or.inl h))),
    fun h => analyze_none_of_invalid_props v (Or.inr (Or.inr (Or.inr h)))⟩
  unfold VideoAnalyzer.analyze
  rw [if_pos h]

theorem C9_video_prevalidation_witness :
    VideoAnalyzer.analyze
      { size := 500, opened := true, fps := 30, frame_count := 100, width := 640,
        height := 480, frameRead := fun _ => FrameRead.ok 0, timeCost := 0 } = none :=
  (C9_video_prevalidation _).1 (by decide)

/-- C4: the claimed wall-clock budget is never enforced.  The analysis result
is independent of the time the analysis takes (analyze never reads the
configured timeout_seconds or any clock), and a concrete file whose analysis
takes 3600 seconds — far beyond the 10-second default budget — still yields a
full signature instead of the claimed "no signature". -/
theorem C4_timeout_never_enforced :
    (∀ (v : VideoFile) (t t' : ℚ),
      VideoAnalyzer.analyze { v with timeCost := t } =
        VideoAnalyzer.analyze { v with timeCost := t' }) ∧
    (VideoAnalyzer.analyze
      { size := 2048, opened := true, fps := 1, frame_count := 100, width := 10,
        height := 10, frameRead := fun _ => FrameRead.ok 7, timeCost := 3600 }).map
        VideoSig.frame_hashes = some (List.replicate 10 7) := by
  constructor
  · intro v t t'
    simp only [VideoAnalyzer.analyze]
  · decide

/-! ## Claim theorems: comparison formulas, symmetry, threshold monotonicity -/

theorem hammingDistance_comm (xs ys : List Bool) :
    hammingDistance xs ys = hammingDistance ys xs := by
  induction xs generalizing ys with
  | nil => cases ys <;> rfl
  | cons x xs ih =>
    cases ys with
    | nil => rfl
    | cons y ys =>
      unfold hammingDistance
      rw [List.zip_cons_cons, List.zip_cons_cons, List.filter_cons, List.filter_cons]
      have ihr := ih ys
      unfold hammingDistance at ihr
      cases x <;> cases y <;> simp [ihr]

theorem zipEqCount_comm (xs ys : List Nat) :
    ((xs.zip ys).filter fun p => p.1 == p.2).length =
      ((ys.zip xs).filter fun p => p.1 == p.2).length := by
  induction xs generalizing ys with
  | nil => cases ys <;> rfl
  | cons x xs ih =>
    cases ys with
    | nil => rfl
    | cons y ys =>
      rw [List.zip_cons_cons, List.zip_cons_cons, List.filter_cons, List.filter_cons]
      have hxy : (x == y) = (y == x) := by
        by_cases h : x = y <;> simp [h, Ne.symm]
      rw [hxy]
      cases y == x <;> simp [ih ys]

theorem image_compare_eq_decide (h1 h2 : Fingerprint) (t : ℚ) :
    ImageAnalyzer.compare h1 h2 t = decide (imageSimilaritySpec h1 h2 ≥ t) := by
  simp only [ImageAnalyzer.compare, List.sum_cons, List.sum_nil, List.length_cons,
    List.length_nil]
  rw [decide_eq_decide]
  unfold imageSimilaritySpec
  constructor <;> intro h <;>
    [skip; skip] <;>
    · refine le_of_le_of_eq h ?_
      push_cast
      ring

theorem imageSimilaritySpec_comm (h1 h2 : Fingerprint) :
    imageSimilaritySpec h1 h2 = imageSimilaritySpec h2 h1 := by
  unfold imageSimilaritySpec
  rw [hammingDistance_comm h1.ahash, hammingDistance_comm h1.dhash,
    hammingDistance_comm h1.phash, hammingDistance_comm h1.whash]

theorem videoRawSimilaritySpec_comm (s1 s2 : VideoSig) :
    videoRawSimilaritySpec s1 s2 = videoRawSimilaritySpec s2 s1 := by
  unfold videoRawSimilaritySpec
  rw [zipEqCount_comm, min_comm]

theorem videoAdjustedSimilaritySpec_comm (s1 s2 : VideoSig) :
    videoAdjustedSimilaritySpec s1 s2 = videoAdjustedSimilaritySpec s2 s1 := by
  unfold videoAdjustedSimilaritySpec
  rw [videoRawSimilaritySpec_comm]
  refine if_congr ?_ rfl rfl
  rw [abs_sub_comm, max_comm]
  tauto

theorem video_compare_eq_decide (s1 s2 : VideoSig) (t : ℚ) :
    VideoAnalyzer.compare s1 s2 t =
      if s1.frame_hashes.isEmpty || s2.frame_hashes.isEmpty then false
      else decide (videoAdjustedSimilaritySpec s1 s2 ≥ t) := by
  unfold VideoAnalyzer.compare videoAdjustedSimilaritySpec videoRawSimilaritySpec
  rfl

/-- C6: on well-formed signatures (at least the one frame hash every real
signature has), video compare accepts exactly when the duration-adjusted
similarity — frame-hash matches over min length times 100, times 0.8
precisely when both durations are positive and differ by more than 5 percent
of the larger — reaches the threshold; and for durations 30 and 29 the
relative difference is 1/30 < 5 percent, so no penalty is applied. -/
theorem C6_video_compare_formula (s1 s2 : VideoSig) (t : ℚ)
    (hn1 : s1.frame_hashes ≠ []) (hn2 : s2.frame_hashes ≠ []) :
    (VideoAnalyzer.compare s1 s2 t = true ↔ videoAdjustedSimilaritySpec s1 s2 ≥ t) ∧
    (s1.duration = 30 → s2.duration = 29 →
      videoAdjustedSimilaritySpec s1 s2 = videoRawSimilaritySpec s1 s2) := by
  constructor
  · rw [video_compare_eq_decide, if_neg]
    · exact decide_eq_true_iff
    · simp [hn1, hn2]
  · intro hd1 hd2
    unfold videoAdjustedSimilaritySpec
    rw [hd1, hd2, if_neg]
    rintro ⟨-, -, hgt⟩
    have hmax : max (30 : ℚ) 29 = 30 := max_eq_left (by norm_num)
    rw [hmax, show |(30 : ℚ) - 29| = 1 by norm_num] at hgt
    norm_num at hgt

theorem C6_video_compare_formula_witness :
    VideoAnalyzer.compare ⟨[1, 2], 30, "r", 2, 60⟩ ⟨[1, 2], 29, "r", 2, 58⟩ 90 = true ↔
      videoAdjustedSimilaritySpec ⟨[1, 2], 30, "r", 2, 60⟩ ⟨[1, 2], 29, "r", 2, 58⟩ ≥ 90 :=
  (C6_video_compare_formula ⟨[1, 2], 30, "r", 2, 60⟩ ⟨[1, 2], 29, "r", 2, 58⟩ 90
    (by decide) (by decide)).1

/-- C7: image compare accepts exactly when (1 − avgDistance/64) × 100 — the
average of the four per-type Hamming distances converted to a similarity —
reaches the threshold, and the result ignores the resolution (and hash
preview) fields entirely: no resolution weighting. -/
theorem C7_image_compare_formula (h1 h2 : Fingerprint) (t : ℚ) :
    (ImageAnalyzer.compare h1 h2 t = true ↔ imageSimilaritySpec h1 h2 ≥ t) ∧
    (∀ r s, ImageAnalyzer.compare { h1 with resolution := r, hash := s } h2 t =
      ImageAnalyzer.compare h1 h2 t) ∧
    (∀ r s, ImageAnalyzer.compare h1 { h2 with resolution := r, hash := s } t =
      ImageAnalyzer.compare h1 h2 t) := by
  refine ⟨?_, fun r s => rfl, fun r s => rfl⟩
  rw [image_compare_eq_decide]
  exact decide_eq_true_iff

/-- C8: both compare functions are symmetric in their two fingerprint or
signature arguments, and a lower threshold is monotonically less strict. -/
theorem C8_compare_symmetric_monotone (h1 h2 : Fingerprint) (s1 s2 : VideoSig)
    (t t1 t2 : ℚ) :
    ImageAnalyzer.compare h1 h2 t = ImageAnalyzer.compare h2 h1 t ∧
    VideoAnalyzer.compare s1 s2 t = VideoAnalyzer.compare s2 s1 t ∧
    (t1 ≥ t2 → ImageAnalyzer.compare h1 h2 t1 = true →
      ImageAnalyzer.compare h1 h2 t2 = true) ∧
    (t1 ≥ t2 → VideoAnalyzer.compare s1 s2 t1 = true →
      VideoAnalyzer.compare s1 s2 t2 = true) := by
  refine ⟨?_, ?_, ?_, ?_⟩
  · rw [image_compare_eq_decide, image_compare_eq_decide,
      imageSimilaritySpec_comm]
  · rw [video_compare_eq_decide, video_compare_eq_decide,
      videoAdjustedSimilaritySpec_comm, Bool.or_comm]
  · intro hle hc
    rw [image_compare_eq_decide] at hc ⊢
    exact decide_eq_true (le_trans hle (decide_eq_true_iff.1 hc))
  · intro hle hc
    rw [video_compare_eq_decide] at hc ⊢
    split_ifs at hc ⊢
    exact decide_eq_true (le_trans hle (decide_eq_true_iff.1 hc))

theorem C8_compare_symmetric_monotone_witness :
    ImageAnalyzer.compare ⟨[true], [false], [true], [false], "10x10", "h"⟩
        ⟨[true], [false], [true], [false], "10x10", "h"⟩ 80 = true ∧
    VideoAnalyzer.compare ⟨[5], 10, "r", 1, 10⟩ ⟨[5], 10, "r", 1, 10⟩ 80 = true :=
  ⟨(C8_compare_symmetric_monotone ⟨[true], [false], [true], [false], "10x10", "h"⟩
      ⟨[true], [false], [true], [false], "10x10", "h"⟩ ⟨[5], 10, "r", 1, 10⟩
      ⟨[5], 10, "r", 1, 10⟩ 90 90 80).2.2.1 (by norm_num)
    (by
      rw [image_compare_eq_decide, decide_eq_true_eq]
      unfold imageSimilaritySpec
      norm_num [show hammingDistance [true] [true] = 0 from by decide,
        show hammingDistance [false] [false] = 0 from by decide]),
   (C8_compare_symmetric_monotone ⟨[true], [false], [true], [false], "10x10", "h"⟩
      ⟨[true], [false], [true], [false], "10x10", "h"⟩ ⟨[5], 10, "r", 1, 10⟩
      ⟨[5], 10, "r", 1, 10⟩ 90 90 80).2.2.2 (by norm_num)
    (by
      rw [video_compare_eq_decide]
      norm_num [videoAdjustedSimilaritySpec, videoRawSimilaritySpec])⟩

/-! ## Claim theorems: totality of compare on malformed inputs -/

/-- C10: on arbitrary dicts — malformed, with missing keys or wrong value
types — both compare methods still return a plain boolean: every raised
exception is caught and mapped to False, a dict without the hash keys gives
False, and an empty (or missing, defaulting to empty) frame-hash sequence on
either side gives False for videos. -/
theorem C10_compare_dyn_total (d1 d2 s1 s2 : PyDict) (t : ℚ) :
    (∀ e, imageCompareBody d1 d2 t = .error e →
      ImageAnalyzer.compareDyn d1 d2 t = false) ∧
    (∀ e, videoCompareBody s1 s2 t = .error e →
      VideoAnalyzer.compareDyn s1 s2 t = false) ∧
    (ImageAnalyzer.compareDyn d1 d2 t = true ∨
      ImageAnalyzer.compareDyn d1 d2 t = false) ∧
    (VideoAnalyzer.compareDyn s1 s2 t = true ∨
      VideoAnalyzer.compareDyn s1 s2 t = false) ∧
    ImageAnalyzer.compareDyn [] d2 t = false ∧
    (pyGet s1 "frame_hashes" (.list []) = .list [] →
      VideoAnalyzer.compareDyn s1 s2 t = false) ∧
    (pyGet s2 "frame_hashes" (.list []) = .list [] →
      VideoAnalyzer.compareDyn s1 s2 t = false) := by
  refine ⟨?_, ?_, ?_, ?_, rfl, ?_, ?_⟩
  · intro e h
    unfold ImageAnalyzer.compareDyn
    rw [h]
  · intro e h
    unfold VideoAnalyzer.compareDyn
    rw [h]
  · cases ImageAnalyzer.compareDyn d1 d2 t
    · exact Or.inr rfl
    · exact Or.inl rfl
  · cases VideoAnalyzer.compareDyn s1 s2 t
    · exact Or.inr rfl
    · exact Or.inl rfl
  · intro hemp
    simp only [VideoAnalyzer.compareDyn, videoCompareBody, hemp]
    rfl
  · intro hemp
    simp only [VideoAnalyzer.compareDyn, videoCompareBody, hemp]
    cases h : pyTruthy (pyGet s1 "frame_hashes" (PyVal.list [])) with
    | error e => rfl
    | ok b => cases b <;> rfl

theorem C10_compare_dyn_total_witness :
    VideoAnalyzer.compareDyn [("frame_hashes", PyVal.list [])] [] 90 = false :=
  (C10_compare_dyn_total [] [] [("frame_hashes", PyVal.list [])] [] 90).2.2.2.2.2.1 rfl

/-! ## Merge lemmas (scanner.py lines 253-268) -/

namespace DuplicateScanner

theorem mergeLoop_sublist (groups : List (List FsPath)) :
    ∀ seen, List.Sublist (mergeLoop groups seen) groups := by
  induction groups with
  | nil => intro seen; simp [mergeLoop]
  | cons g rest ih =>
    intro seen
    rw [mergeLoop]
    split_ifs with h
    · exact (ih _).cons₂ g
    · exact (ih _).cons g

theorem mergeLoop_not_mem_seen (groups : List (List FsPath)) :
    ∀ seen g, g ∈ mergeLoop groups seen → ∀ p ∈ g, p ∉ seen := by
  induction groups with
  | nil => intro seen g hg; simp [mergeLoop] at hg
  | cons gr rest ih =>
    intro seen g hg
    rw [mergeLoop] at hg
    split_ifs at hg with h
    · rcases List.mem_cons.1 hg with rfl | hg
      · exact h
      · intro p hp hpseen
        exact ih _ g hg p hp (List.mem_append.2 (Or.inl hpseen))
    · exact ih _ g hg

theorem mergeLoop_pairwise (groups : List (List FsPath)) :
    ∀ seen, (mergeLoop groups seen).Pairwise fun g1 g2 => ∀ p ∈ g1, p ∉ g2 := by
  induction groups with
  | nil => intro seen; simp [mergeLoop]
  | cons gr rest ih =>
    intro seen
    rw [mergeLoop]
    split_ifs with h
    · refine List.Pairwise.cons ?_ (ih _)
      intro g2 hg2 p hp hpg2
      exact mergeLoop_not_mem_seen rest _ g2 hg2 p hpg2 (List.mem_append.2 (Or.inr hp))
    · exact ih _

theorem mergeLoop_of_disjoint (groups : List (List FsPath)) :
    ∀ seen, (groups.Pairwise fun g1 g2 => ∀ p ∈ g1, p ∉ g2) →
      (∀ g ∈ groups, ∀ p ∈ g, p ∉ seen) →
      mergeLoop groups seen = groups := by
  induction groups with
  | nil => intro seen _ _; rfl
  | cons gr rest ih =>
    intro seen hpw hseen
    rw [mergeLoop, if_pos (hseen gr (List.mem_cons_self gr rest))]
    congr 1
    refine ih _ (List.Pairwise.of_cons hpw) ?_
    intro g hg p hp hmem
    rcases List.mem_append.1 hmem with hs | hgr
    · exact hseen g (List.mem_cons_of_mem _ hg) p hp hs
    · exact (List.pairwise_cons.1 hpw).1 g hg p hgr hp

end DuplicateScanner

/-! ## Greedy clustering lemmas (scanner.py lines 181-231) -/

namespace DuplicateScanner

theorem innerScan_spec {α : Type} (cmp : α → α → Bool) (f1 : FsPath) (h1 : α) :
    ∀ (entries : List (FsPath × α)) (processed : List FsPath),
      (innerScan cmp f1 h1 entries processed).1.Nodup ∧
      ∀ p ∈ (innerScan cmp f1 h1 entries processed).1, p ≠ f1 ∧ p ∉ processed := by
  intro entries
  induction entries with
  | nil =>
    intro processed
    refine ⟨List.nodup_nil, ?_⟩
    intro p hp
    simp [innerScan] at hp
  | cons e rest ih =>
    intro processed
    obtain ⟨f2, h2⟩ := e
    simp only [innerScan]
    split_ifs with hskip hcmp
    · exact ih processed
    · obtain ⟨ihnd, ihmem⟩ := ih (processed ++ [f2])
      constructor
      · refine List.nodup_cons.2 ⟨?_, ihnd⟩
        intro hmem
        exact (ihmem f2 hmem).2 (List.mem_append.2 (Or.inr (List.mem_singleton.2 rfl)))
      · intro p hp
        rcases List.mem_cons.1 hp with rfl | hp
        · refine ⟨?_, ?_⟩
          · intro hpf1
            exact hskip (Or.inl hpf1.symm)
          · intro hpproc
            exact hskip (Or.inr hpproc)
        · obtain ⟨hne, hnp⟩ := ihmem p hp
          exact ⟨hne, fun hm => hnp (List.mem_append.2 (Or.inl hm))⟩
    · exact ih processed

theorem greedyGroups_mem {α : Type} (cmp : α → α → Bool) (all : List (FsPath × α)) :
    ∀ (entries : List (FsPath × α)) (processed : List FsPath) (g : List FsPath),
      g ∈ greedyGroups cmp all entries processed → g.Nodup ∧ 2 ≤ g.length := by
  intro entries
  induction entries with
  | nil =>
    intro processed g hg
    simp [greedyGroups] at hg
  | cons e rest ih =>
    intro processed g hg
    obtain ⟨f1, h1⟩ := e
    simp only [greedyGroups] at hg
    split_ifs at hg with hproc hne
    · exact ih _ g hg
    · exact ih _ g hg
    · rcases List.mem_cons.1 hg with rfl | hg
      · obtain ⟨hnd, hmem⟩ := innerScan_spec cmp f1 h1 all processed
        refine ⟨List.nodup_cons.2 ⟨fun hm => (hmem f1 hm).1 rfl, hnd⟩, ?_⟩
        have hpos : 0 < (innerScan cmp f1 h1 all processed).1.length :=
          List.length_pos.2 hne
        simp only [List.length_cons]
        omega
      · exact ih _ g hg

end DuplicateScanner

/-! ## Exact-duplicate bucket lemmas (scanner.py lines 170-179) -/

namespace DuplicateScanner

theorem flatPaths_cons (h : Digest) (ps : List FsPath) (rest : List (Digest × List FsPath)) :
    flatPaths ((h, ps) :: rest) = ps ++ flatPaths rest := rfl

theorem insertHashGroup_flat (hg : List (Digest × List FsPath)) (h : Digest) (p : FsPath) :
    (flatPaths (insertHashGroup hg h p)).Perm (flatPaths hg ++ [p]) := by
  induction hg with
  | nil => simp [flatPaths, insertHashGroup]
  | cons pr rest ih =>
    obtain ⟨h', ps⟩ := pr
    rw [insertHashGroup]
    split_ifs with hc
    · rw [flatPaths_cons, flatPaths_cons, List.append_assoc, List.append_assoc]
      exact List.Perm.append_left ps List.perm_append_comm
    · rw [flatPaths_cons, flatPaths_cons, List.append_assoc]
      exact List.Perm.append_left ps ih

theorem buildHashGroups_flat_aux (fh : List (FsPath × Digest)) :
    ∀ hg, (flatPaths (fh.foldl (fun hg e => insertHashGroup hg e.2 e.1) hg)).Perm
      (flatPaths hg ++ fh.map Prod.fst) := by
  induction fh with
  | nil => intro hg; simp
  | cons e rest ih =>
    intro hg
    obtain ⟨p, h⟩ := e
    rw [List.foldl_cons]
    refine (ih (insertHashGroup hg h p)).trans ?_
    refine (List.Perm.append_right _ (insertHashGroup_flat hg h p)).trans ?_
    rw [List.append_assoc]
    exact List.Perm.refl _

theorem buildHashGroups_flat (fh : List (FsPath × Digest)) :
    (flatPaths (buildHashGroups fh)).Perm (fh.map Prod.fst) := by
  have := buildHashGroups_flat_aux fh []
  simpa [flatPaths, buildHashGroups] using this

theorem find_exact_duplicates_mem (fh : List (FsPath × Digest))
    (hnd : (fh.map Prod.fst).Nodup) :
    ∀ g ∈ find_exact_duplicates fh, g.Nodup ∧ 2 ≤ g.length := by
  intro g hg
  unfold find_exact_duplicates at hg
  rw [List.mem_filter] at hg
  obtain ⟨hmem, hlen⟩ := hg
  constructor
  · have hflat : (flatPaths (buildHashGroups fh)).Nodup :=
      ((buildHashGroups_flat fh).nodup_iff).2 hnd
    exact (List.nodup_flatten.1 hflat).1 g hmem
  · have := of_decide_eq_true hlen
    omega

end DuplicateScanner

theorem mem_if_stage {P : Prop} [Decidable P] (l : List (List FsPath)) (g : List FsPath)
    (hg : g ∈ if P then l else []) : g ∈ l := by
  split at hg
  · exact hg
  · simp at hg

/-- C1: merging accepts a group exactly when it is disjoint from everything
accepted before it — the merged output is a sublist of the input group
lists, its groups are pairwise disjoint, and an input whose groups are
already pairwise disjoint is kept in full — and consequently the output of
find_duplicates (stages concatenated in the fixed order exact, image,
video) contains no path in two groups, no duplicated path inside a group,
and only groups of at least 2 members.  The only assumption is dict-key
uniqueness for the file_hashes map. -/
theorem C1_find_duplicates_invariants (opts : ScanOptions) (st : DuplicateScanner.ScanState)
    (hfh : (st.file_hashes.map Prod.fst).Nodup) :
    (∀ g ∈ DuplicateScanner.find_duplicates opts st, g.Nodup ∧ 2 ≤ g.length) ∧
    ((DuplicateScanner.find_duplicates opts st).Pairwise fun g1 g2 => ∀ p ∈ g1, p ∉ g2) ∧
    (∀ groups : List (List FsPath),
      List.Sublist (DuplicateScanner.merge_duplicate_groups groups) groups) ∧
    (∀ groups : List (List FsPath),
      (groups.Pairwise fun g1 g2 => ∀ p ∈ g1, p ∉ g2) →
      DuplicateScanner.merge_duplicate_groups groups = groups) := by
  refine ⟨?_, ?_, fun groups => DuplicateScanner.mergeLoop_sublist groups [],
    fun groups h => DuplicateScanner.mergeLoop_of_disjoint groups [] h (by simp)⟩
  · intro g hg
    unfold DuplicateScanner.find_duplicates at hg
    split at hg
    · simp at hg
    · have hg2 := (DuplicateScanner.mergeLoop_sublist _ []).subset hg
      rcases List.mem_append.1 hg2 with hg3 | hg3
      · rcases List.mem_append.1 hg3 with hg4 | hg4
        · exact DuplicateScanner.find_exact_duplicates_mem st.file_hashes hfh g
            (mem_if_stage _ g hg4)
        · exact DuplicateScanner.greedyGroups_mem _ _ _ _ g (mem_if_stage _ g hg4)
      · exact DuplicateScanner.greedyGroups_mem _ _ _ _ g (mem_if_stage _ g hg3)
  · unfold DuplicateScanner.find_duplicates
    split
    · exact List.Pairwise.nil
    · exact DuplicateScanner.mergeLoop_pairwise _ []

theorem C1_find_duplicates_invariants_witness :
    (["a", "b"] : List FsPath).Nodup ∧ 2 ≤ (["a", "b"] : List FsPath).length :=
  (C1_find_duplicates_invariants ⟨true, false, false⟩
    ⟨["a", "b", "c"], [("a", "h1"), ("b", "h1"), ("c", "h2")], [], [], 90⟩ (by decide)).1
    ["a", "b"] (by decide)

/-! ## Bucket characterization: completion-order dependence of the exact pass -/

namespace DuplicateScanner

theorem pathsOfHash_nil (h : Digest) : pathsOfHash [] h = [] := rfl

theorem pathsOfHash_snoc (fh : List (FsPath × Digest)) (p : FsPath) (h k : Digest) :
    pathsOfHash (fh ++ [(p, h)]) k =
      pathsOfHash fh k ++ if h = k then [p] else [] := by
  unfold pathsOfHash
  rw [List.filter_append, List.map_append]
  congr 1
  by_cases hc : h = k
  · subst hc
    simp
  · have hb : (h == k) = false := beq_eq_false_iff_ne.2 hc
    simp [List.filter, hb, hc]

theorem insertHashGroup_buckets (h : Digest) (p : FsPath) (F : Digest → List FsPath) :
    ∀ hg : List (Digest × List FsPath), ((hg.map Prod.fst).Nodup) →
      (∀ pr ∈ hg, pr.2 = F pr.1) →
      (h ∉ hg.map Prod.fst → F h = []) →
      ∀ pr ∈ insertHashGroup hg h p, pr.2 = F pr.1 ++ if h = pr.1 then [p] else [] := by
  intro hg
  induction hg with
  | nil =>
    intro _ _ hmiss pr hpr
    simp only [insertHashGroup, List.mem_singleton] at hpr
    subst hpr
    rw [if_pos rfl, hmiss (by simp)]
    rfl
  | cons q rest ih =>
    intro hnd hF hmiss pr hpr
    obtain ⟨h', ps⟩ := q
    rw [insertHashGroup] at hpr
    split_ifs at hpr with hc
    · rcases List.mem_cons.1 hpr with rfl | hpr
      · have hps : ps = F h' := hF (h', ps) (List.mem_cons_self _ _)
        simp [hc, hps]
      · have hne : h ≠ pr.1 := by
          intro he
          apply (List.nodup_cons.1 hnd).1
          rw [hc]
          exact List.mem_map.2 ⟨pr, hpr, he.symm⟩
        rw [hF pr (List.mem_cons_of_mem _ hpr), if_neg hne, List.append_nil]
    · rcases List.mem_cons.1 hpr with rfl | hpr
      · rw [hF (h', ps) (List.mem_cons_self _ _), if_neg (fun he => hc he.symm),
          List.append_nil]
      · refine ih (List.nodup_cons.1 hnd).2
          (fun q hq => hF q (List.mem_cons_of_mem _ hq)) ?_ pr hpr
        intro hk
        apply hmiss
        simp only [List.map_cons, List.mem_cons]
        rintro (he | hm)
        · exact hc he.symm
        · exact hk hm

theorem insertHashGroup_keys (h : Digest) (p : FsPath) :
    ∀ (hg : List (Digest × List FsPath)) (k : Digest),
      k ∈ (insertHashGroup hg h p).map Prod.fst ↔ k ∈ hg.map Prod.fst ∨ k = h := by
  intro hg
  induction hg with
  | nil =>
    intro k
    simp [insertHashGroup]
  | cons q rest ih =>
    intro k
    obtain ⟨h', ps⟩ := q
    rw [insertHashGroup]
    split_ifs with hc
    · subst hc
      simp only [List.map_cons, List.mem_cons]
      tauto
    · simp only [List.map_cons, List.mem_cons, ih k]
      tauto

theorem insertHashGroup_keys_nodup (h : Digest) (p : FsPath) :
    ∀ hg : List (Digest × List FsPath), ((hg.map Prod.fst).Nodup) →
      ((insertHashGroup hg h p).map Prod.fst).Nodup := by
  intro hg
  induction hg with
  | nil =>
    intro _
    simp [insertHashGroup]
  | cons q rest ih =>
    intro hnd
    obtain ⟨h', ps⟩ := q
    rw [insertHashGroup]
    split_ifs with hc
    · exact hnd
    · simp only [List.map_cons, List.nodup_cons] at hnd ⊢
      refine ⟨?_, ih hnd.2⟩
      intro hmem
      rcases (insertHashGroup_keys h p rest h').1 hmem with hm | he
      · exact hnd.1 hm
      · exact hc he

theorem buildHashGroups_inv :
    ∀ (fh pre : List (FsPath × Digest)) (hg : List (Digest × List FsPath)),
      ((hg.map Prod.fst).Nodup) →
      (∀ pr ∈ hg, pr.2 = pathsOfHash pre pr.1) →
      (∀ k, k ∈ hg.map Prod.fst ↔ pathsOfHash pre k ≠ []) →
      let out := fh.foldl (fun hg e => insertHashGroup hg e.2 e.1) hg
      ((out.map Prod.fst).Nodup) ∧
      (∀ pr ∈ out, pr.2 = pathsOfHash (pre ++ fh) pr.1) ∧
      (∀ k, k ∈ out.map Prod.fst ↔ pathsOfHash (pre ++ fh) k ≠ []) := by
  intro fh
  induction fh with
  | nil =>
    intro pre hg hnd hF hK
    exact ⟨hnd, fun pr hpr => by simpa using hF pr hpr, fun k => by simpa using hK k⟩
  | cons e rest ih =>
    intro pre hg hnd hF hK
    obtain ⟨p, h⟩ := e
    rw [List.foldl_cons]
    have hsnoc : ∀ k, pathsOfHash (pre ++ [(p, h)]) k =
        pathsOfHash pre k ++ if h = k then [p] else [] := fun k => pathsOfHash_snoc pre p h k
    have hnd' := insertHashGroup_keys_nodup h p hg hnd
    have hF' : ∀ pr ∈ insertHashGroup hg h p, pr.2 = pathsOfHash (pre ++ [(p, h)]) pr.1 := by
      intro pr hpr
      rw [hsnoc pr.1]
      exact insertHashGroup_buckets h p (pathsOfHash pre) hg hnd hF
        (fun hm => by
          by_contra hne
          exact hm ((hK h).2 hne)) pr hpr
    have hK' : ∀ k, k ∈ (insertHashGroup hg h p).map Prod.fst ↔
        pathsOfHash (pre ++ [(p, h)]) k ≠ [] := by
      intro k
      rw [insertHashGroup_keys h p hg k, hsnoc k, hK k]
      by_cases hc : h = k
      · subst hc
        simp
      · simp only [if_neg hc, List.append_nil]
        constructor
        · rintro (ha | he)
          · exact ha
          · exact absurd he.symm hc
        · exact Or.inl
    have := ih (pre ++ [(p, h)]) (insertHashGroup hg h p) hnd' hF' hK'
    rwa [List.append_assoc, List.singleton_append] at this

theorem buildHashGroups_spec (fh : List (FsPath × Digest)) :
    (((buildHashGroups fh).map Prod.fst).Nodup) ∧
    (∀ pr ∈ buildHashGroups fh, pr.2 = pathsOfHash fh pr.1) ∧
    (∀ k, k ∈ (buildHashGroups fh).map Prod.fst ↔ pathsOfHash fh k ≠ []) := by
  have := buildHashGroups_inv fh [] [] (by simp) (by simp) (by simp [pathsOfHash])
  simpa [buildHashGroups] using this

theorem find_exact_duplicates_mem_iff (fh : List (FsPath × Digest)) (g : List FsPath) :
    g ∈ find_exact_duplicates fh ↔ ∃ h, g = pathsOfHash fh h ∧ 1 < g.length := by
  obtain ⟨hnd, hF, hK⟩ := buildHashGroups_spec fh
  constructor
  · intro hg
    unfold find_exact_duplicates at hg
    rw [List.mem_filter] at hg
    obtain ⟨hmem, hlen⟩ := hg
    obtain ⟨pr, hpr, rfl⟩ := List.mem_map.1 hmem
    exact ⟨pr.1, hF pr hpr, of_decide_eq_true hlen⟩
  · rintro ⟨h, rfl, hlen⟩
    have hne : pathsOfHash fh h ≠ [] := by
      intro he
      rw [he] at hlen
      simp at hlen
    obtain ⟨pr, hpr, hpr1⟩ := List.mem_map.1 ((hK h).2 hne)
    unfold find_exact_duplicates
    rw [List.mem_filter]
    have hval : pr.2 = pathsOfHash fh h := by
      rw [hF pr hpr, hpr1]
    refine ⟨List.mem_map.2 ⟨pr, hpr, hval⟩, decide_eq_true hlen⟩

end DuplicateScanner

/-- C5 counterexample: the exact stage iterates the file_hashes dict in
insertion order, which is worker-completion order, not discovery order.
Two runs over the same two files A and B with equal digests — the same
result map, received in the two possible completion orders — produce
different grouped output: [[A, B]] against [[B, A]]. -/
theorem C5_counterexample_completion_order :
    List.Perm [(("a" : FsPath), ("h" : Digest)), ("b", "h")] [("b", "h"), ("a", "h")] ∧
    DuplicateScanner.find_exact_duplicates [("a", "h"), ("b", "h")] ≠
      DuplicateScanner.find_exact_duplicates [("b", "h"), ("a", "h")] := by
  constructor
  · exact List.Perm.swap ("b", "h") ("a", "h") []
  · decide

theorem exact_perm_congr (fh1 fh2 : List (FsPath × Digest)) (hperm : fh1.Perm fh2) :
    ∀ g ∈ DuplicateScanner.find_exact_duplicates fh1,
      ∃ g' ∈ DuplicateScanner.find_exact_duplicates fh2, g.Perm g' := by
  intro g hg
  obtain ⟨h, rfl, hlen⟩ := (DuplicateScanner.find_exact_duplicates_mem_iff fh1 g).1 hg
  have hp : (DuplicateScanner.pathsOfHash fh1 h).Perm (DuplicateScanner.pathsOfHash fh2 h) :=
    (hperm.filter _).map _
  refine ⟨DuplicateScanner.pathsOfHash fh2 h, ?_, hp⟩
  apply (DuplicateScanner.find_exact_duplicates_mem_iff fh2 _).2
  refine ⟨h, rfl, ?_⟩
  rwa [← hp.length_eq]

/-- C5 amended: the grouping iterates the completed result maps in
insertion (completion) order, so only the group contents are independent of
completion timing, not their order.  For the exact stage, two runs whose
result maps contain the same entries — any two completion orders of the
same per-file results — produce the same groups up to a permutation of
group members (and hence of group order), and in particular the same number
of groups with the same path sets; identical output is only guaranteed for
identical completion order. -/
theorem C5_amended_exact_stage_perm (fh1 fh2 : List (FsPath × Digest))
    (hperm : fh1.Perm fh2) :
    (∀ g ∈ DuplicateScanner.find_exact_duplicates fh1,
      ∃ g' ∈ DuplicateScanner.find_exact_duplicates fh2, g.Perm g') ∧
    (∀ g ∈ DuplicateScanner.find_exact_duplicates fh2,
      ∃ g' ∈ DuplicateScanner.find_exact_duplicates fh1, g.Perm g') :=
  ⟨exact_perm_congr fh1 fh2 hperm, exact_perm_congr fh2 fh1 hperm.symm⟩

theorem C5_amended_exact_stage_perm_witness :
    ∃ g' ∈ DuplicateScanner.find_exact_duplicates [(("b" : FsPath), ("h" : Digest)), ("a", "h")],
      List.Perm ["a", "b"] g' :=
  (C5_amended_exact_stage_perm [("a", "h"), ("b", "h")] [("b", "h"), ("a", "h")]
    (List.Perm.swap ("b", "h") ("a", "h") [])).1 ["a", "b"] (by decide)

theorem C3_amended_progress_bands_witness :
    (progressReports ⟨true, true, true⟩ 2 2 2).getLast? = some 100 :=
  (C3_amended_progress_bands ⟨true, true, true⟩ 2 2 2).2.2.2.2.1 rfl (by decide)
